import Mathlib

/-!
Shallow embedding of the customer-order extraction pipeline in `app.py`
(Bengali/English free text → per-customer blocks → typed record fields →
validation → export rows), together with theorems settling the spec's claims.

Strings are modelled as Lean `String` (a list of Unicode codepoints, matching
Python's `str`); per-character work is done on `List Char`.  Python's regex
character classes `\d` and `\s` are modelled over the character repertoire this
program manipulates: `\d` as ASCII or Bengali decimal digits, `\s` as the ASCII
whitespace characters.
-/

/-- Python `str.isspace`-style whitespace test for the characters `\s` can meet
here (space, tab, newline, carriage return, vertical tab, form feed). -/
def pyIsSpace (c : Char) : Bool :=
  (c == ' ') || (c == '\t') || (c == '\n') || (c == '\r') || (c == '\x0b') || (c == '\x0c')

/-- Python `str.strip()` on a list of characters. -/
def pyStrip (l : List Char) : List Char :=
  ((l.dropWhile pyIsSpace).reverse.dropWhile pyIsSpace).reverse

/-- Python `str.strip()` on a `String`. -/
def pyStripS (s : String) : String := String.mk (pyStrip s.data)

/-- The character translation table built by
`str.maketrans('০১২৩৪৫৬৭৮৯', '0123456789')` in `bengali_to_english_digits`:
each Bengali decimal digit goes to its ASCII counterpart, everything else is
left alone. -/
def digitMap (c : Char) : Char :=
  if c = '০' then '0' else if c = '১' then '1' else if c = '২' then '2'
  else if c = '৩' then '3' else if c = '৪' then '4' else if c = '৫' then '5'
  else if c = '৬' then '6' else if c = '৭' then '7' else if c = '৮' then '8'
  else if c = '৯' then '9' else c

/-- Membership in the Bengali decimal digit set ০–৯ (the domain of the
translation table). -/
def isBengaliDigit (c : Char) : Bool :=
  (c == '০') || (c == '১') || (c == '২') || (c == '৩') || (c == '৪') ||
    (c == '৫') || (c == '৬') || (c == '৭') || (c == '৮') || (c == '৯')

/-- `bengali_to_english_digits` from `app.py`: `text.translate(translation_table)`. -/
def bengali_to_english_digits (s : String) : String := String.mk (s.data.map digitMap)

/-- Python's regex class `\d` over the characters this program handles:
an ASCII decimal digit or a Bengali decimal digit. -/
def isDigitU (c : Char) : Bool := c.isDigit || isBengaliDigit c

/-- Python's `sub in hay` substring test. -/
def strHasSub (hay sub : List Char) : Bool :=
  match hay with
  | [] => sub.isEmpty
  | c :: t => sub.isPrefixOf (c :: t) || strHasSub t sub

/-- `kw in s` for `String`s. -/
def containsKw (s kw : String) : Bool := strHasSub s.data kw.data

/-- The name-keyword test of `process_customer_block` line 116:
`any(keyword in line for keyword in ['নাম', 'name', 'nam'])` (case-sensitive). -/
def containsNameKw (s : String) : Bool :=
  containsKw s "নাম" || containsKw s "name" || containsKw s "nam"

/-- The order-keyword test of `process_customer_block` lines 127/131:
`'অর্ডার' in line or 'order' in line or 'অডার' in line` (case-sensitive). -/
def containsOrderKw (s : String) : Bool :=
  containsKw s "অর্ডার" || containsKw s "order" || containsKw s "অডার"

/-- The address-keyword test of `process_customer_block` line 126-127:
`any(keyword in line for keyword in address_keywords)` (case-sensitive). -/
def containsAddrKw (s : String) : Bool :=
  ["জেলা", "থানা", "এলাকা", "ঠিকানা", "এলাকার নাম", "address", "area"].any
    (fun k => containsKw s k)

/-- Python `text.split('\n')`. -/
def splitNL : List Char → List (List Char)
  | [] => [[]]
  | c :: t =>
    if c = '\n' then [] :: splitNL t
    else
      match splitNL t with
      | [] => [[c]]
      | s :: ss => (c :: s) :: ss

/-- `re.sub(r'\r\n', '\n', text)`. -/
def replaceCRLF : List Char → List Char
  | '\r' :: '\n' :: t => '\n' :: replaceCRLF t
  | c :: t => c :: replaceCRLF t
  | [] => []

/-- `re.sub(r'\r', '\n', text)`. -/
def crToNl (l : List Char) : List Char := l.map fun c => if c = '\r' then '\n' else c

/-- Number of newline characters in a list. -/
def countNL (l : List Char) : Nat := l.countP fun c => c == '\n'

/-- The characters before the first newline. -/
def beforeFirstNL (l : List Char) : List Char := l.takeWhile fun c => c != '\n'

/-- The characters after the last newline. -/
def afterLastNL (l : List Char) : List Char :=
  (l.reverse.takeWhile fun c => c != '\n').reverse

/-- Effect of `re.sub(r'\n\s*\n\s*\n+', '\n\n', text)` on one maximal whitespace
run: the pattern matches (leftmost, greedy) exactly when the run holds at least
three newlines, and then consumes the run from its first to its last newline,
replacing that span by two newlines. -/
def collapseRun (w : List Char) : List Char :=
  if 3 ≤ countNL w then beforeFirstNL w ++ '\n' :: '\n' :: afterLastNL w else w

/-- Scanner for `re.sub(r'\n\s*\n\s*\n+', '\n\n', text)`: accumulates the
current maximal whitespace run in `ws` and rewrites it with `collapseRun` when
it ends. -/
def collapseAux (ws : List Char) : List Char → List Char
  | [] => collapseRun ws
  | c :: t =>
    if pyIsSpace c then collapseAux (ws ++ [c]) t
    else collapseRun ws ++ c :: collapseAux [] t

/-- `re.sub(r'\n\s*\n\s*\n+', '\n\n', text)`. -/
def collapse (l : List Char) : List Char := collapseAux [] l

/-- Scanner for `re.split(r'\n\s*\n', text)`: the pattern matches (leftmost,
greedy) inside a maximal whitespace run exactly when the run holds at least two
newlines, and the separator then spans from the run's first to its last
newline; `acc` is the current segment, `ws` the pending whitespace run. -/
def splitBlankAux (acc ws : List Char) : List Char → List (List Char)
  | [] =>
    if 2 ≤ countNL ws then [acc ++ beforeFirstNL ws, afterLastNL ws]
    else [acc ++ ws]
  | c :: t =>
    if pyIsSpace c then splitBlankAux acc (ws ++ [c]) t
    else if 2 ≤ countNL ws then
      (acc ++ beforeFirstNL ws) :: splitBlankAux (afterLastNL ws ++ [c]) [] t
    else splitBlankAux (acc ++ ws ++ [c]) [] t

/-- `re.split(r'\n\s*\n', text)`. -/
def splitBlank (l : List Char) : List (List Char) := splitBlankAux [] [] l

/-- `re.match(r'^(নাম|name|nam|আপনার নাম)', line, re.IGNORECASE)` viewed as a
Boolean: does the line begin with a recognized name marker? -/
def startsNameMarker (s : String) : Bool :=
  let low := s.data.map Char.toLower
  ("নাম".data.isPrefixOf low) || ("name".data.isPrefixOf low) ||
    ("nam".data.isPrefixOf low) || ("আপনার নাম".data.isPrefixOf low)

/-- `any(re.match(...) for line in lines[:2])` from `extract_customer_blocks`. -/
def markedSeg (seg : List String) : Bool := (seg.take 2).any startsNameMarker

/-- Per-segment cleanup from `extract_customer_blocks`:
`lines = [line.strip() for line in block.split('\n') if line.strip()]`. -/
def cleanSeg (seg : List Char) : List String :=
  ((splitNL seg).map (fun l => String.mk (pyStrip l))).filter (fun s => s != "")

/-- The candidate segments `extract_customer_blocks` iterates over: line-ending
normalization, blank-line collapsing, `strip`, blank-line split, per-segment
line cleanup. -/
def cleanedSegments (input : String) : List (List String) :=
  (splitBlank (pyStrip (collapse (crToNl (replaceCRLF input.data))))).map cleanSeg

/-- The re-merge loop of `extract_customer_blocks`: a segment starts a new
customer block only when it is name-marked and a block is already accumulating;
otherwise its lines extend the current block. -/
def segLoop : List (List String) → List String → List String → List String
  | [], cur, acc =>
    if cur.isEmpty then acc else acc ++ [String.intercalate "\n" cur]
  | seg :: rest, cur, acc =>
    if seg.isEmpty then segLoop rest cur acc
    else if markedSeg seg && !cur.isEmpty then
      segLoop rest seg (acc ++ [String.intercalate "\n" cur])
    else segLoop rest (cur ++ seg) acc

/-- `extract_customer_blocks` from `app.py` (including the final fallback:
when the loop produced no blocks and the input is non-blank, the whole stripped
input is one block). -/
def extract_customer_blocks (input : String) : List String :=
  if (segLoop (cleanedSegments input) [] []).isEmpty && !(pyStrip input.data).isEmpty
  then [String.mk (pyStrip input.data)]
  else segLoop (cleanedSegments input) [] []

/-- `re.search(r'(\d{11})', line)`: leftmost position at which eleven
consecutive digit characters start; the capture is those eleven characters. -/
def findRun11 : List Char → Option (List Char)
  | [] => none
  | c :: t =>
    if 11 ≤ (c :: t).length ∧ ((c :: t).take 11).all isDigitU = true then
      some ((c :: t).take 11)
    else findRun11 t

/-- `re.search(r'\+88(\d{11})', line)`: leftmost `+88` followed by eleven digit
characters; the capture is those eleven digits. -/
def find88 : List Char → Option (List Char)
  | [] => none
  | c :: t =>
    if c = '+' ∧ t.take 2 = ['8', '8'] ∧ 11 ≤ (t.drop 2).length ∧
        ((t.drop 2).take 11).all isDigitU = true then
      some ((t.drop 2).take 11)
    else find88 t

/-- `extract_phone_number` from `app.py`: digits normalized, then the pattern
list `[r'(\d{11})', r'\+88(\d{11})']` is tried in order, first match wins. -/
def extract_phone_number (line : String) : Option String :=
  match findRun11 (line.data.map digitMap) with
  | some d => some (String.mk d)
  | none =>
    match find88 (line.data.map digitMap) with
    | some d => some (String.mk d)
    | none => none

/-- Does the first alternative `(\d+)\s*টাকা` of the amount pattern match at
this position?  `\d+` is a greedy digit run, `\s*` a greedy whitespace run, and
`টাকা` a literal; no backtracking can succeed otherwise since the three
character classes are disjoint. -/
def matchTakaAt (l : List Char) : Bool :=
  match l with
  | [] => false
  | c :: _ => isDigitU c && ("টাকা".data.isPrefixOf ((l.dropWhile isDigitU).dropWhile pyIsSpace))

/-- `re.search(r'(\d+)\s*টাকা|Taka', text)`: at each position, leftmost first,
the alternative `(\d+)\s*টাকা` is tried and then the bare literal `Taka`.
`some (some d)` is a match via the first alternative capturing `d`;
`some none` is a match via the bare `Taka` literal, whose group 1 is empty
(Python's `match.group(1)` is `None` there); `none` is no match. -/
def amountSearch : List Char → Option (Option (List Char))
  | [] => none
  | c :: t =>
    if matchTakaAt (c :: t) then some (some ((c :: t).takeWhile isDigitU))
    else if "Taka".data.isPrefixOf (c :: t) then some none
    else amountSearch t

/-- `re.search(r'(\d+)', text)`: the leftmost maximal digit run. -/
def firstDigitRun : List Char → Option (List Char)
  | [] => none
  | c :: t => if isDigitU c then some ((c :: t).takeWhile isDigitU) else firstDigitRun t

/-- `extract_amount` from `app.py`: normalize digits; search the pattern
`(\d+)\s*টাকা|Taka` and return its group 1 if the pattern matched anywhere
(group 1 being `None` when only the bare `Taka` literal matched); otherwise
fall back to the first digit run; otherwise `None`. -/
def extract_amount (note : String) : Option String :=
  match amountSearch (note.data.map digitMap) with
  | some g => g.map String.mk
  | none => (firstDigitRun (note.data.map digitMap)).map String.mk

/-- The `\s*[:：]?\s*` tail of the name-marker pattern in
`re.sub(r'^(নাম|আপনার নাম|name|nam)\s*[:：]?\s*', '', line, ...)`. -/
def consumeSep (l : List Char) : List Char :=
  match l.dropWhile pyIsSpace with
  | c :: t => if c = ':' ∨ c = '：' then t.dropWhile pyIsSpace else c :: t
  | [] => []

/-- `re.sub(r'^(নাম|আপনার নাম|name|nam)\s*[:：]?\s*', '', line,
flags=re.IGNORECASE).strip()` from `process_customer_block`: one leading name
marker (alternatives tried in pattern order, case-insensitively) with its
separator is removed, then the line is stripped. -/
def stripNameMarker (s : String) : String :=
  let l := s.data
  let low := l.map Char.toLower
  let rem :=
    if "নাম".data.isPrefixOf low then consumeSep (l.drop 3)
    else if "আপনার নাম".data.isPrefixOf low then consumeSep (l.drop 9)
    else if "name".data.isPrefixOf low then consumeSep (l.drop 4)
    else if "nam".data.isPrefixOf low then consumeSep (l.drop 3)
    else l
  String.mk (pyStrip rem)

/-- The record dictionary returned by `process_customer_block`. -/
structure Record where
  name : String
  address : String
  phone : String
  amount : Option String
  note : String
  deliveryType : String
deriving DecidableEq, Repr

/-- The mutable locals of `process_customer_block`'s line loop. -/
structure PState where
  name : String
  phone : String
  addr : List String
  note : String
  amount : Option String
deriving DecidableEq, Repr

/-- The inner scan `for j in range(i+1, len(lines)): if lines[j].strip(): ...`:
the first non-empty stripped line at or after index `j`. -/
def nextNonempty (all : List String) (j : Nat) : Option String :=
  ((all.drop j).map pyStripS).find? (fun s => s != "")

/-- Name branch of the line loop (line 116-117 of `app.py`). -/
def procStepName (i : Nat) (l : String) (st : PState) : PState :=
  if st.name = "" ∧ (i = 0 ∨ containsNameKw l = true) then
    { st with name := stripNameMarker l }
  else st

/-- Phone branch of the line loop (line 120-123 of `app.py`). -/
def procStepPhone (l : String) (st : PState) : PState :=
  if st.phone = "" then
    match extract_phone_number l with
    | some p => { st with phone := p }
    | none => st
  else st

/-- Address branch of the line loop (line 126-128 of `app.py`). -/
def procStepAddr (l : String) (st : PState) : PState :=
  if containsAddrKw l && !containsOrderKw l then { st with addr := st.addr ++ [l] }
  else st

/-- Order-note branch of the line loop (line 131-137 of `app.py`); note that it
carries no "already captured" guard. -/
def procStepNote (all : List String) (i : Nat) (l : String) (st : PState) : PState :=
  if containsOrderKw l then
    match nextNonempty all (i + 1) with
    | some nl => { st with note := nl, amount := extract_amount nl }
    | none => st
  else st

/-- One iteration of the line loop of `process_customer_block`: strip the line,
skip it when empty, else run the four field branches in order. -/
def procStep (all : List String) (i : Nat) (line : String) (st : PState) : PState :=
  let l := pyStripS line
  if l = "" then st
  else procStepNote all i l (procStepAddr l (procStepPhone l (procStepName i l st)))

/-- `for i, line in enumerate(lines)` over the block's lines. -/
def goLines (all : List String) : Nat → List String → PState → PState
  | _, [], st => st
  | i, line :: rest, st => goLines all (i + 1) rest (procStep all i line st)

/-- `lines = block_text.strip().split('\n')` from `process_customer_block`. -/
def procLines (block : String) : List String :=
  (splitNL (pyStrip block.data)).map String.mk

/-- `process_customer_block` from `app.py`. -/
def process_customer_block (block : String) : Record :=
  let lines := procLines block
  let st := goLines lines 0 lines { name := "", phone := "", addr := [], note := "", amount := some "" }
  { name := st.name, address := String.intercalate "\n" st.addr, phone := st.phone,
    amount := st.amount, note := st.note, deliveryType := "Home" }

/-- Python's falsy test `not data['Amount']` for the Amount field, which is
either a string or `None`. -/
def amountMissing : Option String → Bool
  | none => true
  | some s => s == ""

/-- `validate_data` from `app.py`: defect names appended in the order
Name, Phone, Address, Amount. -/
def validate_data (d : Record) : List String :=
  (if d.name = "" then ["Name"] else [])
    ++ (if d.phone = "" ∨ d.phone.length ≠ 11 then ["Phone"] else [])
    ++ (if d.address = "" then ["Address"] else [])
    ++ (if amountMissing d.amount = true then ["Amount"] else [])

/-- `not missing_fields` — the record passes validation. -/
def isValidRecord (d : Record) : Bool := validate_data d == []

/-- The `all_data` list built by `main`'s block loop: records that pass
validation, in block order; invalid ones are skipped. -/
def all_valid_data (input : String) : List Record :=
  (extract_customer_blocks input).foldl
    (fun acc b =>
      if isValidRecord (process_customer_block b) then acc ++ [process_customer_block b]
      else acc) []

/-- `df.insert(0, 'Invoice', range(1, len(df) + 1))`: the export rows, each
valid record paired with its 1-based invoice number. -/
def exportRows (input : String) : List (Nat × Record) :=
  (List.range' 1 (all_valid_data input).length).zip (all_valid_data input)

/-- Modelled from the spec: a case-insensitive address-keyword test, as §4.3
describes the matching ("all matching case-insensitive and bilingual"); used to
compare the spec's reading against the code's case-sensitive `in` test. -/
def containsAddrKwCI (s : String) : Bool :=
  ["জেলা", "থানা", "এলাকা", "ঠিকানা", "এলাকার নাম", "address", "area"].any
    (fun k => strHasSub (s.data.map Char.toLower) (k.data.map Char.toLower))

/-- Modelled from the spec: a case-insensitive order-keyword test. -/
def containsOrderKwCI (s : String) : Bool :=
  ["অর্ডার", "অডার", "order"].any
    (fun k => strHasSub (s.data.map Char.toLower) (k.data.map Char.toLower))

/-- Modelled from the spec: the Address value that §4.3's case-insensitive
matching rule would produce for a block. -/
def addressCI (block : String) : String :=
  String.intercalate "\n"
    (((procLines block).map pyStripS).filter
      (fun l => containsAddrKwCI l && !containsOrderKwCI l))

/-! ## Properties of the digit normalizer -/

theorem digitMap_not_bengali (c : Char) : isBengaliDigit (digitMap c) = false := by
  unfold digitMap
  split_ifs with h0 h1 h2 h3 h4 h5 h6 h7 h8 h9
  case _ => decide
  case _ => decide
  case _ => decide
  case _ => decide
  case _ => decide
  case _ => decide
  case _ => decide
  case _ => decide
  case _ => decide
  case _ => decide
  case _ =>
    unfold isBengaliDigit
    simp only [Bool.or_eq_false_iff, beq_eq_false_iff_ne, ne_eq]
    exact ⟨⟨⟨⟨⟨⟨⟨⟨⟨h0, h1⟩, h2⟩, h3⟩, h4⟩, h5⟩, h6⟩, h7⟩, h8⟩, h9⟩

theorem digitMap_fix {c : Char} (h : isBengaliDigit c = false) : digitMap c = c := by
  unfold digitMap
  split_ifs with h0 h1 h2 h3 h4 h5 h6 h7 h8 h9 <;>
    first
      | rfl
      | (subst_vars; exact absurd h (by decide))

theorem digitMap_idem (c : Char) : digitMap (digitMap c) = digitMap c :=
  digitMap_fix (digitMap_not_bengali c)

/-- C8: `bengali_to_english_digits` maps each Bengali decimal digit to its
ASCII decimal equivalent, preserves length and leaves every character at a
position holding no Bengali digit unchanged, produces no Bengali digit in its
output, and is idempotent. -/
theorem c8_digit_normalizer (s : String) :
    bengali_to_english_digits "০১২৩৪৫৬৭৮৯" = "0123456789"
    ∧ (bengali_to_english_digits s).length = s.length
    ∧ (∀ i : Nat, isBengaliDigit (s.data.getD i ' ') = false →
        (bengali_to_english_digits s).data.getD i ' ' = s.data.getD i ' ')
    ∧ (∀ c ∈ (bengali_to_english_digits s).data, isBengaliDigit c = false)
    ∧ bengali_to_english_digits (bengali_to_english_digits s) = bengali_to_english_digits s := by
  refine ⟨by decide, ?_, ?_, ?_, ?_⟩
  · show (s.data.map digitMap).length = s.data.length
    exact List.length_map _ _
  · intro i h
    have hd : (bengali_to_english_digits s).data = s.data.map digitMap := rfl
    rw [hd, List.getD_eq_getElem?_getD, List.getD_eq_getElem?_getD, List.getElem?_map]
    rw [List.getD_eq_getElem?_getD] at h
    cases hi : s.data[i]? with
    | none => rfl
    | some c =>
      rw [hi, Option.getD_some] at h
      rw [Option.map_some', Option.getD_some, Option.getD_some]
      exact digitMap_fix h
  · intro c hc
    simp only [bengali_to_english_digits] at hc
    obtain ⟨a, _, rfl⟩ := List.mem_map.mp hc
    exact digitMap_not_bengali a
  · simp only [bengali_to_english_digits, List.map_map]
    exact congrArg String.mk (List.map_congr_left fun a _ => digitMap_idem a)

theorem c8_digit_normalizer_witness :
    (bengali_to_english_digits "৫x").data.getD 1 ' ' = ("৫x" : String).data.getD 1 ' '
    ∧ isBengaliDigit '5' = false
    ∧ bengali_to_english_digits (bengali_to_english_digits "৫x") = bengali_to_english_digits "৫x" :=
  ⟨(c8_digit_normalizer "৫x").2.2.1 1 (by decide),
   (c8_digit_normalizer "৫x").2.2.2.1 '5' (by decide),
   (c8_digit_normalizer "৫x").2.2.2.2⟩

/-! ## Evaluations exhibiting the phone and amount extraction bugs -/

/-- C1: evaluation at the failing input.  For a line holding `+88` followed by
the 11-digit number `01712345678`, the code extracts `88017123456` — the first
eleven of the thirteen digits, country code included — because the bare
`(\d{11})` pattern is tried before `\+88(\d{11})`, which is thereby
unreachable; the claim instead requires `01712345678`. -/
theorem c1_phone_plus88_eval :
    extract_phone_number "+8801712345678" = some "88017123456"
    ∧ (process_customer_block "নাম: Rahim\n+8801712345678").phone = "88017123456"
    ∧ "88017123456" ≠ "01712345678" := by decide

/-- C2: evaluation at the failing input.  For the note `"500 Taka shirt"` the
code returns no amount at all: in `(\d+)\s*টাকা|Taka` the alternation binds the
bare literal `Taka` as a whole alternative, the match succeeds with group 1
empty, and the digit-run fallback is never reached — while the claim requires
the non-empty digit string `500`.  The Bengali-unit path does work. -/
theorem c2_amount_taka_eval :
    extract_amount "500 Taka shirt" = none
    ∧ extract_amount "৫০০ টাকা শার্ট" = some "500" := by decide

/-- C3 counterexample: in the block `"order\nA 1\norder\nB 2"` the first
order-marker line is followed by `"A 1"`, but the produced Note is `"B 2"` —
the second order-marker occurrence overwrote it, against the claim. -/
theorem c3_counterexample :
    (process_customer_block "order\nA 1\norder\nB 2").note = "B 2"
    ∧ (process_customer_block "order\nA 1\norder\nB 2").amount = some "2"
    ∧ (process_customer_block "order\nA 1\norder\nB 2").note ≠ "A 1" := by decide

/-- C4 counterexample: for the block `"order\nshirt"` the extractor returns an
Amount of `None` (the note `"shirt"` holds no digits), not the empty string
the claim requires for absent data. -/
theorem c4_counterexample :
    (process_customer_block "order\nshirt").amount = none
    ∧ (process_customer_block "order\nshirt").amount ≠ some "" := by decide

/-- C9 counterexample: the line `"Address: Dhaka"` contains the address marker
`address` only up to letter case, so the case-insensitive rule of the claim
would append it, but the code's case-sensitive `in` test does not: the produced
Address is empty and differs from the spec-modelled case-insensitive value. -/
theorem c9_counterexample :
    (process_customer_block "নাম: X\nAddress: Dhaka").address = ""
    ∧ addressCI "নাম: X\nAddress: Dhaka" = "Address: Dhaka"
    ∧ (process_customer_block "নাম: X\nAddress: Dhaka").address
        ≠ addressCI "নাম: X\nAddress: Dhaka" := by decide

/-! ## The validator's defect set -/

/-- C5: the defect list of `validate_data` holds a field name exactly when the
corresponding rule fires — Name, Address empty; Phone empty or not 11
characters long; Amount `None` or empty. -/
theorem c5_validator_characterization (d : Record) (f : String) :
    f ∈ validate_data d ↔
      ((f = "Name" ∧ d.name = "")
        ∨ (f = "Phone" ∧ (d.phone = "" ∨ d.phone.length ≠ 11))
        ∨ (f = "Address" ∧ d.address = "")
        ∨ (f = "Amount" ∧ (d.amount = none ∨ d.amount = some ""))) := by
  unfold validate_data
  cases ham : d.amount with
  | none => split_ifs <;> simp_all [List.mem_append, amountMissing]
  | some s => split_ifs <;> simp_all [List.mem_append, amountMissing]

/-! ## Export assembly -/

theorem foldl_valid_eq_filter (l : List String) (acc : List Record) :
    l.foldl
        (fun a b =>
          if isValidRecord (process_customer_block b) then a ++ [process_customer_block b]
          else a) acc
      = acc ++ (l.map process_customer_block).filter isValidRecord := by
  induction l generalizing acc with
  | nil => simp
  | cons b t ih =>
    rw [List.foldl_cons, List.map_cons, List.filter_cons]
    by_cases h : isValidRecord (process_customer_block b) = true
    · rw [if_pos h, if_pos h, ih, List.append_assoc]
      rfl
    · rw [if_neg h, if_neg h, ih]

/-- C7: the export rows carry invoice numbers exactly `1..K` (`K` the number of
valid records), in order, and their records are exactly the block records that
pass validation, in their order of appearance — rejected records are skipped
without leaving numbering gaps. -/
theorem c7_export_ordering (input : String) :
    (exportRows input).map Prod.fst = List.range' 1 (all_valid_data input).length
    ∧ (exportRows input).map Prod.snd
        = ((extract_customer_blocks input).map process_customer_block).filter isValidRecord := by
  constructor
  · exact List.map_fst_zip _ _ (by simp [List.length_range'])
  · have h2 : (exportRows input).map Prod.snd = all_valid_data input :=
      List.map_snd_zip _ _ (by simp [List.length_range'])
    rw [h2]
    unfold all_valid_data
    rw [foldl_valid_eq_filter]
    simp

/-! ## Projections of the per-line field branches -/

theorem procStepName_phone (i : Nat) (l : String) (st : PState) :
    (procStepName i l st).phone = st.phone := by
  unfold procStepName; split <;> rfl

theorem procStepName_addr (i : Nat) (l : String) (st : PState) :
    (procStepName i l st).addr = st.addr := by
  unfold procStepName; split <;> rfl

theorem procStepName_note (i : Nat) (l : String) (st : PState) :
    (procStepName i l st).note = st.note := by
  unfold procStepName; split <;> rfl

theorem procStepName_amount (i : Nat) (l : String) (st : PState) :
    (procStepName i l st).amount = st.amount := by
  unfold procStepName; split <;> rfl

theorem procStepPhone_addr (l : String) (st : PState) :
    (procStepPhone l st).addr = st.addr := by
  unfold procStepPhone
  split
  · split <;> rfl
  · rfl

theorem procStepPhone_note (l : String) (st : PState) :
    (procStepPhone l st).note = st.note := by
  unfold procStepPhone
  split
  · split <;> rfl
  · rfl

theorem procStepPhone_amount (l : String) (st : PState) :
    (procStepPhone l st).amount = st.amount := by
  unfold procStepPhone
  split
  · split <;> rfl
  · rfl

theorem procStepAddr_phone (l : String) (st : PState) :
    (procStepAddr l st).phone = st.phone := by
  unfold procStepAddr; split <;> rfl

theorem procStepAddr_note (l : String) (st : PState) :
    (procStepAddr l st).note = st.note := by
  unfold procStepAddr; split <;> rfl

theorem procStepAddr_amount (l : String) (st : PState) :
    (procStepAddr l st).amount = st.amount := by
  unfold procStepAddr; split <;> rfl

theorem procStepNote_phone (all : List String) (i : Nat) (l : String) (st : PState) :
    (procStepNote all i l st).phone = st.phone := by
  unfold procStepNote
  split
  · split <;> rfl
  · rfl

theorem procStepNote_addr (all : List String) (i : Nat) (l : String) (st : PState) :
    (procStepNote all i l st).addr = st.addr := by
  unfold procStepNote
  split
  · split <;> rfl
  · rfl

/-! ## Shape of extracted phone numbers -/

theorem findRun11_shape : ∀ {l d : List Char}, findRun11 l = some d →
    d.length = 11 ∧ ∀ c ∈ d, isDigitU c = true ∧ c ∈ l := by
  intro l
  induction l with
  | nil => intro d h; simp [findRun11] at h
  | cons a t ih =>
    intro d h
    unfold findRun11 at h
    by_cases hc : 11 ≤ (a :: t).length ∧ ((a :: t).take 11).all isDigitU = true
    · rw [if_pos hc] at h
      have hd := Option.some.inj h
      subst hd
      refine ⟨?_, ?_⟩
      · rw [List.length_take]
        exact Nat.min_eq_left hc.1
      · intro c hcm
        exact ⟨List.all_eq_true.mp hc.2 c hcm, List.take_subset _ _ hcm⟩
    · rw [if_neg hc] at h
      obtain ⟨h1, h2⟩ := ih h
      exact ⟨h1, fun c hcm => ⟨(h2 c hcm).1, List.mem_cons_of_mem _ (h2 c hcm).2⟩⟩

theorem find88_shape : ∀ {l d : List Char}, find88 l = some d →
    d.length = 11 ∧ ∀ c ∈ d, isDigitU c = true ∧ c ∈ l := by
  intro l
  induction l with
  | nil => intro d h; simp [find88] at h
  | cons a t ih =>
    intro d h
    unfold find88 at h
    by_cases hc : a = '+' ∧ t.take 2 = ['8', '8'] ∧ 11 ≤ (t.drop 2).length ∧
        ((t.drop 2).take 11).all isDigitU = true
    · rw [if_pos hc] at h
      have hd := Option.some.inj h
      subst hd
      refine ⟨?_, ?_⟩
      · rw [List.length_take]
        exact Nat.min_eq_left hc.2.2.1
      · intro c hcm
        refine ⟨List.all_eq_true.mp hc.2.2.2 c hcm, ?_⟩
        exact List.mem_cons_of_mem _ (List.drop_subset _ _ (List.take_subset _ _ hcm))
    · rw [if_neg hc] at h
      obtain ⟨h1, h2⟩ := ih h
      exact ⟨h1, fun c hcm => ⟨(h2 c hcm).1, List.mem_cons_of_mem _ (h2 c hcm).2⟩⟩

theorem mem_map_digitMap_not_bengali {c : Char} {l : List Char}
    (h : c ∈ l.map digitMap) : isBengaliDigit c = false := by
  obtain ⟨a, _, rfl⟩ := List.mem_map.mp h
  exact digitMap_not_bengali a

theorem isDigitU_ascii {c : Char} (h1 : isDigitU c = true)
    (h2 : isBengaliDigit c = false) : c.isDigit = true := by
  unfold isDigitU at h1
  rw [h2, Bool.or_false] at h1
  exact h1

theorem extract_phone_shape {line p : String} (h : extract_phone_number line = some p) :
    p.length = 11 ∧ ∀ c ∈ p.data, c.isDigit = true := by
  unfold extract_phone_number at h
  cases hf : findRun11 (line.data.map digitMap) with
  | some d =>
    rw [hf] at h
    have hp := Option.some.inj h
    subst hp
    obtain ⟨h1, h2⟩ := findRun11_shape hf
    refine ⟨h1, fun c hcm => ?_⟩
    exact isDigitU_ascii (h2 c hcm).1 (mem_map_digitMap_not_bengali (h2 c hcm).2)
  | none =>
    rw [hf] at h
    cases hg : find88 (line.data.map digitMap) with
    | some d =>
      rw [hg] at h
      have hp := Option.some.inj h
      subst hp
      obtain ⟨h1, h2⟩ := find88_shape hg
      refine ⟨h1, fun c hcm => ?_⟩
      exact isDigitU_ascii (h2 c hcm).1 (mem_map_digitMap_not_bengali (h2 c hcm).2)
    | none => rw [hg] at h; exact absurd h (by simp)

/-- The invariant C10 claims for the Phone field. -/
def phoneOK (p : String) : Prop :=
  p = "" ∨ (p.length = 11 ∧ ∀ c ∈ p.data, c.isDigit = true)

theorem procStep_phone_inv (all : List String) (i : Nat) (line : String) (st : PState)
    (h : phoneOK st.phone) : phoneOK (procStep all i line st).phone := by
  unfold procStep
  by_cases he : pyStripS line = ""
  · rw [if_pos he]; exact h
  · rw [if_neg he, procStepNote_phone, procStepAddr_phone]
    unfold procStepPhone
    split
    · cases hp : extract_phone_number (pyStripS line) with
      | some p =>
        show phoneOK p
        exact Or.inr (extract_phone_shape hp)
      | none =>
        show phoneOK (procStepName i (pyStripS line) st).phone
        rw [procStepName_phone]
        exact h
    · rw [procStepName_phone]; exact h

theorem goLines_phone_inv (all : List String) :
    ∀ (todo : List String) (i : Nat) (st : PState),
      phoneOK st.phone → phoneOK (goLines all i todo st).phone := by
  intro todo
  induction todo with
  | nil => intro i st h; simpa [goLines] using h
  | cons line rest ih =>
    intro i st h
    simp only [goLines]
    exact ih _ _ (procStep_phone_inv all i line st h)

/-- C10: for every block, the extracted Phone is either empty or exactly eleven
ASCII digit characters; hence a non-empty extracted Phone never trips the
validator's length rule. -/
theorem c10_phone_shape (block : String) :
    (process_customer_block block).phone = ""
    ∨ ((process_customer_block block).phone.length = 11
        ∧ ∀ c ∈ (process_customer_block block).phone.data, c.isDigit = true) :=
  goLines_phone_inv (procLines block) (procLines block) 0
    { name := "", phone := "", addr := [], note := "", amount := some "" } (Or.inl rfl)

/-! ## Shape of extracted amounts -/

theorem amountSearch_shape : ∀ {l : List Char} {g : Option (List Char)},
    amountSearch l = some g → g = none ∨ ∃ d, g = some d ∧ d ≠ [] := by
  intro l
  induction l with
  | nil => intro g h; simp [amountSearch] at h
  | cons c t ih =>
    intro g h
    unfold amountSearch at h
    by_cases h1 : matchTakaAt (c :: t) = true
    · rw [if_pos h1] at h
      have hg := Option.some.inj h
      subst hg
      refine Or.inr ⟨_, rfl, ?_⟩
      have hc : isDigitU c = true := by
        simp only [matchTakaAt, Bool.and_eq_true] at h1
        exact h1.1
      rw [List.takeWhile_cons, if_pos hc]
      exact List.cons_ne_nil _ _
    · rw [if_neg h1] at h
      by_cases h2 : "Taka".data.isPrefixOf (c :: t) = true
      · rw [if_pos h2] at h
        exact Or.inl (Option.some.inj h).symm
      · rw [if_neg h2] at h
        exact ih h

theorem firstDigitRun_shape : ∀ {l d : List Char}, firstDigitRun l = some d → d ≠ [] := by
  intro l
  induction l with
  | nil => intro d h; simp [firstDigitRun] at h
  | cons c t ih =>
    intro d h
    unfold firstDigitRun at h
    by_cases hc : isDigitU c = true
    · rw [if_pos hc] at h
      have hd := Option.some.inj h
      subst hd
      rw [List.takeWhile_cons, if_pos hc]
      exact List.cons_ne_nil _ _
    · rw [if_neg hc] at h
      exact ih h

theorem mk_ne_empty {l : List Char} (h : l ≠ []) : String.mk l ≠ "" :=
  fun he => h (congrArg String.data he)

theorem extract_amount_shape (x : String) :
    extract_amount x = none ∨ ∃ s, extract_amount x = some s ∧ s ≠ "" := by
  unfold extract_amount
  cases ha : amountSearch (x.data.map digitMap) with
  | some g =>
    rcases amountSearch_shape ha with hg | ⟨d, hd, hne⟩
    · subst hg
      exact Or.inl rfl
    · subst hd
      exact Or.inr ⟨String.mk d, rfl, mk_ne_empty hne⟩
  | none =>
    cases hf : firstDigitRun (x.data.map digitMap) with
    | some d => exact Or.inr ⟨String.mk d, rfl, mk_ne_empty (firstDigitRun_shape hf)⟩
    | none => exact Or.inl rfl

/-- The amended totality invariant for the Amount field. -/
def amountOK (a : Option String) : Prop :=
  a = some "" ∨ a = none ∨ ∃ s, a = some s ∧ s ≠ ""

theorem procStep_amount_inv (all : List String) (i : Nat) (line : String) (st : PState)
    (h : amountOK st.amount) : amountOK (procStep all i line st).amount := by
  unfold procStep
  by_cases he : pyStripS line = ""
  · rw [if_pos he]; exact h
  · rw [if_neg he]
    unfold procStepNote
    split
    · cases hn : nextNonempty all (i + 1) with
      | some nl =>
        show amountOK (extract_amount nl)
        rcases extract_amount_shape nl with h1 | ⟨s, h1, h2⟩
        · exact Or.inr (Or.inl h1)
        · exact Or.inr (Or.inr ⟨s, h1, h2⟩)
      | none =>
        show amountOK (procStepAddr (pyStripS line)
          (procStepPhone (pyStripS line) (procStepName i (pyStripS line) st))).amount
        rw [procStepAddr_amount, procStepPhone_amount, procStepName_amount]
        exact h
    · rw [procStepAddr_amount, procStepPhone_amount, procStepName_amount]
      exact h

theorem goLines_amount_inv (all : List String) :
    ∀ (todo : List String) (i : Nat) (st : PState),
      amountOK st.amount → amountOK (goLines all i todo st).amount := by
  intro todo
  induction todo with
  | nil => intro i st h; simpa [goLines] using h
  | cons line rest ih =>
    intro i st h
    simp only [goLines]
    exact ih _ _ (procStep_amount_inv all i line st h)

/-- C4 (amended): field extraction is total, and every field except Amount is a
string with absent data denoted by the empty string; the Amount field is either
the untouched initial empty string, `None`, or a non-empty extracted string —
an order note with no extractable amount leaves `None`, not the empty
string. -/
theorem c4_amount_shape (block : String) :
    (process_customer_block block).amount = some ""
    ∨ (process_customer_block block).amount = none
    ∨ ∃ s, (process_customer_block block).amount = some s ∧ s ≠ "" :=
  goLines_amount_inv (procLines block) (procLines block) 0
    { name := "", phone := "", addr := [], note := "", amount := some "" } (Or.inl rfl)

/-! ## The address accumulator -/

theorem procStep_addr (all : List String) (i : Nat) (line : String) (st : PState) :
    (procStep all i line st).addr
      = st.addr ++ (if (containsAddrKw (pyStripS line) && !containsOrderKw (pyStripS line)) = true
                    then [pyStripS line] else []) := by
  unfold procStep
  by_cases he : pyStripS line = ""
  · have hf : ¬ ((containsAddrKw (pyStripS line) && !containsOrderKw (pyStripS line)) = true) := by
      rw [he]; decide
    rw [if_pos he, if_neg hf, List.append_nil]
  · rw [if_neg he, procStepNote_addr]
    unfold procStepAddr
    by_cases hc : (containsAddrKw (pyStripS line) && !containsOrderKw (pyStripS line)) = true
    · rw [if_pos hc, if_pos hc]
      show (procStepPhone (pyStripS line) (procStepName i (pyStripS line) st)).addr
          ++ [pyStripS line] = st.addr ++ [pyStripS line]
      rw [procStepPhone_addr, procStepName_addr]
    · rw [if_neg hc, if_neg hc]
      show (procStepPhone (pyStripS line) (procStepName i (pyStripS line) st)).addr
          = st.addr ++ []
      rw [procStepPhone_addr, procStepName_addr, List.append_nil]

theorem goLines_addr (all : List String) :
    ∀ (todo : List String) (i : Nat) (st : PState),
      (goLines all i todo st).addr
        = st.addr ++ (todo.map pyStripS).filter
            (fun l => containsAddrKw l && !containsOrderKw l) := by
  intro todo
  induction todo with
  | nil => intro i st; simp [goLines]
  | cons line rest ih =>
    intro i st
    simp only [goLines, List.map_cons, List.filter_cons]
    rw [ih, procStep_addr]
    by_cases hc : (containsAddrKw (pyStripS line) && !containsOrderKw (pyStripS line)) = true
    · rw [if_pos hc, if_pos hc, List.append_assoc]
      rfl
    · rw [if_neg hc, if_neg hc, List.append_nil]

/-- C9 (amended): a line of the block is appended to the Address accumulator
exactly when it contains an address keyword as a case-sensitive substring and
no order keyword (also case-sensitive); the final Address is those stripped
lines, newline-joined in scan order. -/
theorem c9_address_case_sensitive (block : String) :
    (process_customer_block block).address
      = String.intercalate "\n"
          (((procLines block).map pyStripS).filter
            (fun l => containsAddrKw l && !containsOrderKw l)) := by
  have h : (process_customer_block block).address
      = String.intercalate "\n"
          (goLines (procLines block) 0 (procLines block)
            { name := "", phone := "", addr := [], note := "", amount := some "" }).addr := rfl
  rw [h, goLines_addr]
  rfl

/-! ## The order-note branch overwrites: last marker wins -/

theorem goLines_append (all : List String) :
    ∀ (xs ys : List String) (i : Nat) (st : PState),
      goLines all i (xs ++ ys) st = goLines all (i + xs.length) ys (goLines all i xs st) := by
  intro xs
  induction xs with
  | nil => intro ys i st; simp [goLines]
  | cons x t ih =>
    intro ys i st
    have h0 : goLines all i ((x :: t) ++ ys) st
        = goLines all (i + 1) (t ++ ys) (procStep all i x st) := rfl
    rw [h0, ih, List.length_cons]
    have hn : i + 1 + t.length = i + (t.length + 1) := by omega
    rw [hn]
    rfl

theorem procStep_note_frozen (all : List String) (i : Nat) (line : String) (st : PState)
    (h : containsOrderKw (pyStripS line) = false) :
    (procStep all i line st).note = st.note ∧ (procStep all i line st).amount = st.amount := by
  unfold procStep
  by_cases he : pyStripS line = ""
  · rw [if_pos he]; exact ⟨rfl, rfl⟩
  · rw [if_neg he]
    unfold procStepNote
    have hn : ¬ (containsOrderKw (pyStripS line) = true) := by rw [h]; simp
    rw [if_neg hn, procStepAddr_note, procStepPhone_note, procStepName_note,
      procStepAddr_amount, procStepPhone_amount, procStepName_amount]
    exact ⟨rfl, rfl⟩

theorem goLines_note_frozen (all : List String) :
    ∀ (todo : List String) (i : Nat) (st : PState),
      (∀ l ∈ todo, containsOrderKw (pyStripS l) = false) →
      (goLines all i todo st).note = st.note ∧ (goLines all i todo st).amount = st.amount := by
  intro todo
  induction todo with
  | nil => intro i st _; exact ⟨rfl, rfl⟩
  | cons line rest ih =>
    intro i st h
    simp only [goLines]
    have hline : containsOrderKw (pyStripS line) = false := h line (List.mem_cons_self _ _)
    have hrest : ∀ l ∈ rest, containsOrderKw (pyStripS l) = false :=
      fun l hl => h l (List.mem_cons_of_mem _ hl)
    obtain ⟨h1, h2⟩ := ih (i + 1) (procStep all i line st) hrest
    obtain ⟨h3, h4⟩ := procStep_note_frozen all i line st hline
    exact ⟨h1.trans h3, h2.trans h4⟩

theorem procStep_order_sets (all : List String) (i : Nat) (line : String) (st : PState)
    (nl : String) (h : containsOrderKw (pyStripS line) = true)
    (hn : nextNonempty all (i + 1) = some nl) :
    (procStep all i line st).note = nl
    ∧ (procStep all i line st).amount = extract_amount nl := by
  have he : pyStripS line ≠ "" := by
    intro heq
    rw [heq] at h
    exact absurd h (by decide)
  unfold procStep
  rw [if_neg he]
  unfold procStepNote
  rw [if_pos h, hn]
  exact ⟨rfl, rfl⟩

/-- C3 (amended): the order-note branch carries no "already captured" guard, so
later order-marker lines DO overwrite Note and Amount.  Whenever `i` is the
last line index whose stripped line contains an order marker and some later
line is non-empty, the produced Note is the first non-empty stripped line after
`i` and Amount is `extract_amount` of it — regardless of any earlier
order-marker lines. -/
theorem c3_last_order_marker_wins (block : String) (i : Nat) (nl : String)
    (h1 : i < (procLines block).length)
    (h2 : containsOrderKw (pyStripS ((procLines block).getD i "")) = true)
    (h3 : ∀ l ∈ (procLines block).drop (i + 1), containsOrderKw (pyStripS l) = false)
    (h4 : nextNonempty (procLines block) (i + 1) = some nl) :
    (process_customer_block block).note = nl
    ∧ (process_customer_block block).amount = extract_amount nl := by
  have hL2 : procLines block
      = (procLines block).take i
          ++ ((procLines block).getD i "" :: (procLines block).drop (i + 1)) := by
    rw [List.getD_eq_getElem _ _ h1, ← List.drop_eq_getElem_cons h1, List.take_append_drop]
  have hrun : ∀ st : PState,
      (goLines (procLines block) 0 (procLines block) st).note = nl
      ∧ (goLines (procLines block) 0 (procLines block) st).amount = extract_amount nl := by
    intro st
    have e1 : goLines (procLines block) 0 (procLines block) st
        = goLines (procLines block) (i + 1) ((procLines block).drop (i + 1))
            (procStep (procLines block) i ((procLines block).getD i "")
              (goLines (procLines block) 0 ((procLines block).take i) st)) := by
      nth_rewrite 2 [hL2]
      rw [goLines_append]
      have hlen : ((procLines block).take i).length = i := by
        rw [List.length_take]
        exact Nat.min_eq_left (Nat.le_of_lt h1)
      rw [hlen]
      simp only [Nat.zero_add, goLines]
    rw [e1]
    obtain ⟨f1, f2⟩ :=
      goLines_note_frozen (procLines block) ((procLines block).drop (i + 1)) (i + 1)
        (procStep (procLines block) i ((procLines block).getD i "")
          (goLines (procLines block) 0 ((procLines block).take i) st)) h3
    obtain ⟨g1, g2⟩ :=
      procStep_order_sets (procLines block) i ((procLines block).getD i "")
        (goLines (procLines block) 0 ((procLines block).take i) st) nl h2 h4
    exact ⟨f1.trans g1, f2.trans g2⟩
  exact hrun { name := "", phone := "", addr := [], note := "", amount := some "" }

theorem c3_last_order_marker_wins_witness :
    ((2 : Nat) < (procLines "order\nA 1\norder\nB 2").length
      ∧ containsOrderKw (pyStripS ((procLines "order\nA 1\norder\nB 2").getD 2 "")) = true
      ∧ nextNonempty (procLines "order\nA 1\norder\nB 2") 3 = some "B 2")
    ∧ ((process_customer_block "order\nA 1\norder\nB 2").note = "B 2"
      ∧ (process_customer_block "order\nA 1\norder\nB 2").amount = extract_amount "B 2") :=
  ⟨⟨by decide, by decide, by decide⟩,
   c3_last_order_marker_wins "order\nA 1\norder\nB 2" 2 "B 2"
     (by decide) (by decide) (by decide) (by decide)⟩

/-! ## Counting the blocks the segmenter yields -/

theorem segLoop_count : ∀ (segs : List (List String)) (cur acc : List String),
    cur ≠ [] → (segLoop segs cur acc).length = acc.length + 1 + segs.countP markedSeg := by
  intro segs
  induction segs with
  | nil =>
    intro cur acc h
    unfold segLoop
    rw [if_neg (by simpa [List.isEmpty_iff] using h)]
    simp
  | cons seg rest ih =>
    intro cur acc h
    unfold segLoop
    by_cases h1 : seg.isEmpty = true
    · rw [if_pos h1, ih cur acc h]
      have hm : markedSeg seg = false := by
        rw [List.isEmpty_iff.mp h1]; decide
      rw [List.countP_cons_of_neg _ _ (by simp [hm])]
    · rw [if_neg h1]
      by_cases h2 : (markedSeg seg && !cur.isEmpty) = true
      · rw [if_pos h2]
        have hseg : seg ≠ [] := fun he => h1 (by rw [he]; rfl)
        rw [ih seg _ hseg]
        rw [Bool.and_eq_true] at h2
        rw [List.countP_cons_of_pos _ _ h2.1]
        simp only [List.length_append, List.length_cons, List.length_nil]
        omega
      · rw [if_neg h2]
        have hcur : cur ++ seg ≠ [] := fun he => h (List.append_eq_nil.mp he).1
        rw [ih (cur ++ seg) acc hcur]
        have hm : markedSeg seg = false := by
          have hne : cur.isEmpty = false := by
            cases hc : cur.isEmpty
            · rfl
            · exact absurd (List.isEmpty_iff.mp hc) h
          cases hmk : markedSeg seg
          · rfl
          · exact absurd (by rw [hmk, hne]; rfl) h2
        rw [List.countP_cons_of_neg _ _ (by simp [hm])]

/-- C6: when the first cleaned blank-line segment of the input is name-marked,
the segmenter yields exactly as many blocks as there are name-marked segments —
non-marked segments are folded into the accumulating block instead of starting
one. -/
theorem c6_segmenter_marked_count (input : String) (s0 : List String)
    (rest : List (List String)) (h1 : cleanedSegments input = s0 :: rest)
    (h2 : markedSeg s0 = true) :
    (extract_customer_blocks input).length = (cleanedSegments input).countP markedSeg := by
  have hs0 : s0 ≠ [] := by
    intro he
    rw [he] at h2
    exact absurd h2 (by decide)
  have hs0e : s0.isEmpty = false := by
    cases hc : s0.isEmpty
    · rfl
    · exact absurd (List.isEmpty_iff.mp hc) hs0
  have hb : segLoop (s0 :: rest) [] [] = segLoop rest s0 [] := by
    conv_lhs => rw [segLoop]
    rw [if_neg (by rw [hs0e]; simp : ¬(s0.isEmpty = true))]
    rw [if_neg (by simp : ¬((markedSeg s0 && !(List.isEmpty ([] : List String))) = true))]
    rfl
  have hlen : (segLoop rest s0 []).length = 1 + rest.countP markedSeg := by
    rw [segLoop_count rest s0 [] hs0]
    simp
  have hne : (segLoop rest s0 []).isEmpty = false := by
    cases hc : (segLoop rest s0 []).isEmpty
    · rfl
    · exfalso
      rw [List.isEmpty_iff.mp hc, List.length_nil] at hlen
      omega
  unfold extract_customer_blocks
  rw [h1, hb]
  rw [if_neg (by rw [hne]; simp)]
  rw [hlen, List.countP_cons_of_pos _ _ h2]
  omega

theorem c6_segmenter_marked_count_witness :
    (cleanedSegments "নাম: A\nx\n\nfoo\n\nname: B\ny"
        = [["নাম: A", "x"], ["foo"], ["name: B", "y"]]
      ∧ markedSeg ["নাম: A", "x"] = true)
    ∧ (extract_customer_blocks "নাম: A\nx\n\nfoo\n\nname: B\ny").length
        = (cleanedSegments "নাম: A\nx\n\nfoo\n\nname: B\ny").countP markedSeg :=
  ⟨⟨by decide, by decide⟩,
   c6_segmenter_marked_count "নাম: A\nx\n\nfoo\n\nname: B\ny" ["নাম: A", "x"]
     [["foo"], ["name: B", "y"]] (by decide) (by decide)⟩
